import Mathlib

/-!
Shallow embedding of the VLESS wire protocol and its outbound dial
orchestration (repository `botlabpro/sing-box`), covering
`transport/vless/protocol.go`, `outbound/vless.go` and the option
declarations.  Go byte slices are modelled as `List Nat` (each element a
byte value), Go strings as their byte sequences, Go `nil` vs present
slices as `Option (List Nat)`.  Machine-integer wrap-around (`uint64`,
`uint16` casts) is modelled with explicit `% 2 ^ w`.
-/

deriving instance DecidableEq for Except

namespace VlessSpec

/-! ## Byte-stream primitives (sing `common/rw`, Go `encoding/binary`) -/

/-- Protocol-level errors.  Mirrors the distinct failure sites of the Go
code; `eof` is Go's `io.EOF`, `unexpectedEOF` is `io.ErrUnexpectedEOF`. -/
inductive PErr where
  | eof
  | unexpectedEOF
  | overflow
  | badVersion (v : Nat)
  | badHeader (b : Nat)
  | unknownFamily (b : Nat)
  | fqdnTooLong
  deriving DecidableEq, Repr

/-- `rw.ReadByte`: read a single byte from the stream. -/
def readByte (l : List Nat) : Except PErr (Nat × List Nat) :=
  match l with
  | [] => .error .eof
  | b :: rest => .ok (b, rest)

/-- `rw.ReadBytes` / `io.ReadFull`: read exactly `n` bytes.  An empty
stream yields `io.EOF`, a short non-empty stream `io.ErrUnexpectedEOF`. -/
def readFull (n : Nat) (l : List Nat) : Except PErr (List Nat × List Nat) :=
  if n ≤ l.length then .ok (l.take n, l.drop n)
  else if l.isEmpty then .error .eof
  else .error .unexpectedEOF

/-- `rw.SkipN`: discard exactly `n` bytes, error on a short stream. -/
def skipN (n : Nat) (l : List Nat) : Except PErr (List Nat) :=
  if n ≤ l.length then .ok (l.drop n)
  else if l.isEmpty then .error .eof
  else .error .unexpectedEOF

/-- `binary.PutUvarint`: LEB128 encoding of an unsigned integer, written
with structural fuel (any `fuel ≥ n` computes the true encoding; the
fuel-0 fallback is only reachable at `n = 0`, where it agrees). -/
def uvarintEncodeAux : Nat → Nat → List Nat
  | 0, n => [n % 128]
  | fuel + 1, n =>
    if n < 128 then [n]
    else (n % 128 + 128) :: uvarintEncodeAux fuel (n / 128)

def uvarintEncode (n : Nat) : List Nat := uvarintEncodeAux n n

/-- `rw.UVariantLen`: the declared byte count of the varint encoding of a
`uint64`, by range cases exactly as in the Go source. -/
def UVariantLen (x : Nat) : Nat :=
  if x < 2 ^ 7 then 1
  else if x < 2 ^ 14 then 2
  else if x < 2 ^ 21 then 3
  else if x < 2 ^ 28 then 4
  else if x < 2 ^ 35 then 5
  else if x < 2 ^ 42 then 6
  else if x < 2 ^ 49 then 7
  else if x < 2 ^ 56 then 8
  else if x < 2 ^ 63 then 9
  else 10

/-- The loop body of `binary.ReadUvarint` (uint64 arithmetic, at most 10
iterations, overflow checks as in the Go standard library).  `x` is the
accumulator, `s` the shift, `i` the iteration index. -/
def readUvarintFrom : List Nat → Nat → Nat → Nat → Except PErr (Nat × List Nat)
  | [], _, _, i => if i = 0 then .error .eof else .error .unexpectedEOF
  | b :: rest, x, s, i =>
    if b < 128 then
      if i = 9 ∧ b > 1 then .error .overflow
      else .ok (x ||| b <<< s % 2 ^ 64, rest)
    else if i = 9 then .error .overflow
    else readUvarintFrom rest (x ||| (b % 128) <<< s % 2 ^ 64) (s + 7) (i + 1)

/-- `rw.ReadUVariant` / `binary.ReadUvarint`. -/
def readUvarint (l : List Nat) : Except PErr (Nat × List Nat) :=
  readUvarintFrom l 0 0 0

/-! ## Destinations and the vmess address serializer

`M.Socksaddr` (sing) holds either a valid IP (4 or 16 bytes), a domain
name, or nothing (the zero value, `empty` here).  The vmess
`AddressSerializer` is configured port-first with family bytes
1 = IPv4, 2 = Fqdn, 3 = IPv6. -/

inductive Socksaddr where
  | empty
  | ipv4 (addr : List Nat) (port : Nat)
  | ipv6 (addr : List Nat) (port : Nat)
  | fqdn (name : List Nat) (port : Nat)
  deriving DecidableEq, Repr

/-- Well-formedness that the Go types guarantee by construction:
`netip.Addr` always carries exactly 4 / 16 real bytes, ports are
`uint16`, domain bytes are bytes and a set `Fqdn` is non-empty. -/
def Socksaddr.wf : Socksaddr → Bool
  | .empty => true
  | .ipv4 a p => a.length == 4 && a.all (· < 256) && p < 65536
  | .ipv6 a p => a.length == 16 && a.all (· < 256) && p < 65536
  | .fqdn n p => !n.isEmpty && n.all (· < 256) && p < 65536

/-- `M.Socksaddr.IsFqdn`. -/
def Socksaddr.isFqdn : Socksaddr → Bool
  | .fqdn _ _ => true
  | _ => false

/-- Big-endian `uint16` bytes (`binary.Write` of a `uint16` value). -/
def u16be (p : Nat) : List Nat := [p / 256 % 256, p % 256]

/-- `vmess.AddressSerializer.WriteAddrPort`: port (2 bytes BE), family
byte, then the address; a domain longer than 255 bytes is rejected, the
zero `Socksaddr` has no family and is rejected. -/
def writeAddrPort : Socksaddr → Except PErr (List Nat)
  | .empty => .error (.unknownFamily 0)
  | .ipv4 a p => .ok (u16be p ++ 1 :: a)
  | .ipv6 a p => .ok (u16be p ++ 3 :: a)
  | .fqdn n p =>
    if n.length > 255 then .error .fqdnTooLong
    else .ok (u16be p ++ 2 :: n.length :: n)

/-- `vmess.AddressSerializer.AddrPortLen`: 2 port bytes plus the declared
address length (1 family byte + 4 / 16 bytes, or 1 + 1 length byte +
domain bytes; the zero value falls into the Fqdn case with length 0). -/
def addrPortLen : Socksaddr → Nat
  | .empty => 2 + (2 + 0)
  | .ipv4 _ _ => 2 + 5
  | .ipv6 _ _ => 2 + 17
  | .fqdn n _ => 2 + (2 + n.length)

/-- `vmess.AddressSerializer.ReadAddrPort`: port, family byte, address. -/
def readAddrPort (l : List Nat) : Except PErr (Socksaddr × List Nat) := do
  let (pb, l) ← readFull 2 l
  let port := pb.headI * 256 + (pb.tailD []).headI
  let (fam, l) ← readByte l
  if fam = 1 then
    let (a, l) ← readFull 4 l
    pure (.ipv4 a port, l)
  else if fam = 3 then
    let (a, l) ← readFull 16 l
    pure (.ipv6 a port, l)
  else if fam = 2 then
    let (n, l) ← readByte l
    let (name, l) ← readFull n l
    pure (.fqdn name port, l)
  else throw (.unknownFamily fam)

/-! ## Requests (`transport/vless/protocol.go`) -/

/-- Protocol constants (`vless.Version`, sing-vmess commands). -/
def Version : Nat := 0

def CommandTCP : Nat := 1

def CommandUDP : Nat := 2

def CommandMux : Nat := 3

/-- `vless.Request`.  `flow` is the Go string's bytes; `vpplDestAddr`
is `none` for a Go `nil` slice and `some bytes` for a present slice. -/
structure Request where
  uuid : List Nat
  command : Nat
  destination : Socksaddr
  flow : List Nat
  vpplDestAddr : Option (List Nat)
  deriving DecidableEq, Repr

/-- `vless.RequestAddonLen`: size of the optional-fields block — zero
when both fields are absent, otherwise two tag bytes plus the
varint-length-prefixed flow and obfuscated-destination payloads (a `nil`
destination still accounts for its zero-length varint). -/
def requestAddonLen (r : Request) : Nat :=
  if r.flow ≠ [] ∨ r.vpplDestAddr ≠ none then
    2 + UVariantLen r.flow.length + (if r.flow ≠ [] then r.flow.length else 0) +
      (match r.vpplDestAddr with
       | some b => UVariantLen b.length + b.length
       | none => UVariantLen 0)
  else 0

/-- `vless.RequestLen`: 1 version byte + 16 identity bytes + varint
length of the addon block + addon block + 1 command byte + address bytes
when the command is not MUX. -/
def requestLen (r : Request) : Nat :=
  1 + 16 + UVariantLen (requestAddonLen r) + requestAddonLen r + 1 +
    (if r.command ≠ CommandMux then addrPortLen r.destination else 0)

/-- `vless.EncodeRequest`.  `buffer.Extend (UVariantLen n)` +
`binary.PutUvarint` emits exactly `uvarintEncode n` whenever
`UVariantLen n = (uvarintEncode n).length`, which holds for every
`uint64` value (proved below as `uvarintEncode_length`); writing the
flow only when non-empty is the same as appending `r.flow`, and a `nil`
obfuscated destination emits the single zero-length varint byte.
`addonsBlock` is the optional-fields block `EncodeRequest` emits when
`addonsLen > 0`. -/
def addonsBlock (r : Request) : List Nat :=
  if requestAddonLen r > 0 then
    10 :: (uvarintEncode r.flow.length ++ r.flow ++
      18 :: (match r.vpplDestAddr with
        | some b => uvarintEncode b.length ++ b
        | none => [0]))
  else []

def encodeRequest (r : Request) : Except PErr (List Nat) := do
  let addrBytes ← if r.command ≠ CommandMux then writeAddrPort r.destination else pure []
  pure (Version ::
    (r.uuid ++ uvarintEncode (requestAddonLen r) ++ addonsBlock r ++ r.command :: addrBytes))

/-- `vless.WriteRequest`: the handshake bytes followed by the payload,
coalesced into one buffer allocated at `requestLen r + payload.length`. -/
def writeRequest (r : Request) (payload : List Nat) : Except PErr (List Nat) := do
  let b ← encodeRequest r
  pure (b ++ payload)

/-- `vless.Addons` as produced by `readAddons`: the parsed flow bytes and
the obfuscated destination (`none` = Go `nil`, i.e. field never set). -/
structure Addons where
  flow : List Nat
  vpplDestination : Option (List Nat)
  deriving DecidableEq, Repr

/-- `vless.readAddons`, running over the isolated addon sub-buffer:
tag 10, varint-prefixed flow (EOF right after the tag is tolerated),
then optionally tag 18 with a varint-prefixed destination blob (EOF
before the tag is tolerated, any other tag or short read is fatal). -/
def readAddons (l : List Nat) : Except PErr Addons := do
  let (h, rest) ← readByte l
  if h ≠ 10 then throw (.badHeader h)
  else
    match readUvarint rest with
    | .error .eof => pure ⟨[], none⟩
    | .error e => throw e
    | .ok (flowLen, rest) => do
      let (flowBytes, rest) ← readFull flowLen rest
      match readByte rest with
      | .error _ => pure ⟨flowBytes, none⟩
      | .ok (h2, rest) =>
        if h2 ≠ 18 then throw (.badHeader h2)
        else do
          let (vlen, rest) ← readUvarint rest
          let (vbytes, _) ← readFull vlen rest
          pure ⟨flowBytes, some vbytes⟩

/-- `vless.ReadRequest`: version byte (must equal 0), 16 identity bytes,
varint addon length, the addon block parsed in isolation when non-empty,
command byte, then the destination unless the command is MUX (in which
case the destination stays the zero value). -/
def readRequest (l : List Nat) : Except PErr (Request × List Nat) := do
  let (v, l) ← readByte l
  if v ≠ Version then throw (.badVersion v)
  let (uuid, l) ← readFull 16 l
  let (addonsLen, l) ← readUvarint l
  let (flow, vppl, l) ←
    if addonsLen > 0 then do
      let (addonsBytes, l) ← readFull addonsLen l
      let a ← readAddons addonsBytes
      pure (a.flow, a.vpplDestination, l)
    else pure (([] : List Nat), (none : Option (List Nat)), l)
  let (cmd, l) ← readByte l
  if cmd ≠ CommandMux then
    let (dest, l) ← readAddrPort l
    pure (⟨uuid, cmd, dest, flow, vppl⟩, l)
  else
    pure (⟨uuid, cmd, .empty, flow, vppl⟩, l)

/-- `vless.WritePacketRequest`: version, identity, a literal zero addon
byte (the flow branch is commented out in the source, so `addonsLen` is
always 0 and the flow is dropped), the UDP command byte regardless of
`r.command`, the destination, and — when non-empty — the payload
prefixed by its length as a big-endian `uint16` (Go cast, hence
`% 2 ^ 16`). -/
def writePacketRequest (r : Request) (payload : List Nat) : Except PErr (List Nat) := do
  let addrBytes ← writeAddrPort r.destination
  pure (Version :: (r.uuid ++ 0 :: CommandUDP :: addrBytes ++
    (if payload.length > 0 then u16be (payload.length % 2 ^ 16) ++ payload else [])))

/-- `vless.ReadResponse`: version byte (must equal 0), one trailing-length
byte, then exactly that many discarded bytes; returns the remaining
stream. -/
def readResponse (l : List Nat) : Except PErr (List Nat) := do
  let (v, l) ← readByte l
  if v ≠ Version then throw (.badVersion v)
  let (n, l) ← readByte l
  if n > 0 then skipN n l else pure l

/-! ## Basic lemmas about the stream primitives -/

@[simp]
theorem ok_bind {ε α β : Type} (a : α) (f : α → Except ε β) :
    (Except.ok a >>= f) = f a := rfl

@[simp]
theorem error_bind {ε α β : Type} (e : ε) (f : α → Except ε β) :
    ((Except.error e : Except ε α) >>= f) = Except.error e := rfl

@[simp]
theorem pure_eq_ok {ε α : Type} (a : α) : (pure a : Except ε α) = Except.ok a := rfl

@[simp]
theorem throw_eq_error {ε α : Type} (e : ε) : (throw e : Except ε α) = Except.error e := rfl

@[simp]
theorem map_ok {ε α β : Type} (f : α → β) (a : α) :
    (f <$> (Except.ok a : Except ε α)) = Except.ok (f a) := rfl

@[simp]
theorem map_error {ε α β : Type} (f : α → β) (e : ε) :
    (f <$> (Except.error e : Except ε α)) = Except.error e := rfl

theorem readFull_append (a rest : List Nat) {n : Nat} (h : a.length = n) :
    readFull n (a ++ rest) = .ok (a, rest) := by
  unfold readFull
  rw [if_pos (by simp [← h])]
  rw [List.take_left' h, List.drop_left' h]

theorem readFull_all (l : List Nat) : readFull l.length l = .ok (l, []) := by
  simpa using readFull_append l [] rfl

/-! ## The varint encoding: length and decode round trip -/

theorem uvarintEncodeAux_congr :
    ∀ f1 f2 n, n ≤ f1 → n ≤ f2 → uvarintEncodeAux f1 n = uvarintEncodeAux f2 n := by
  intro f1
  induction f1 with
  | zero =>
    intro f2 n h1 _
    have hn : n = 0 := by omega
    subst hn
    cases f2 <;> simp [uvarintEncodeAux]
  | succ f ih =>
    intro f2 n h1 h2
    cases f2 with
    | zero =>
      have hn : n = 0 := by omega
      subst hn
      simp [uvarintEncodeAux]
    | succ f2 =>
      by_cases h : n < 128
      · simp [uvarintEncodeAux, h]
      · simp only [uvarintEncodeAux, if_neg h]
        have hdiv : n / 128 < n := Nat.div_lt_self (by omega) (by omega)
        rw [ih f2 (n / 128) (by omega) (by omega)]

theorem uvarintEncode_small {n : Nat} (h : n < 128) : uvarintEncode n = [n] := by
  unfold uvarintEncode
  cases n with
  | zero => simp [uvarintEncodeAux]
  | succ k => simp [uvarintEncodeAux, h]

theorem uvarintEncode_large {n : Nat} (h : 128 ≤ n) :
    uvarintEncode n = (n % 128 + 128) :: uvarintEncode (n / 128) := by
  unfold uvarintEncode
  cases n with
  | zero => omega
  | succ k =>
    simp only [uvarintEncodeAux, if_neg (by omega : ¬k + 1 < 128)]
    have hdiv : (k + 1) / 128 < k + 1 := Nat.div_lt_self (by omega) (by omega)
    rw [uvarintEncodeAux_congr k ((k + 1) / 128) ((k + 1) / 128) (by omega) (by omega)]

theorem uvarintEncode_length_exact :
    ∀ k n, 2 ^ (7 * k) ≤ n → n < 2 ^ (7 * (k + 1)) → (uvarintEncode n).length = k + 1 := by
  intro k
  induction k with
  | zero =>
    intro n _ hn
    rw [uvarintEncode_small (by norm_num at hn; omega)]
    rfl
  | succ k ih =>
    intro n hlo hhi
    have h128 : 128 ≤ n := by
      calc 128 = 2 ^ 7 := by norm_num
        _ ≤ 2 ^ (7 * (k + 1)) := Nat.pow_le_pow_right (by norm_num) (by omega)
        _ ≤ n := hlo
    rw [uvarintEncode_large h128]
    have hdlo : 2 ^ (7 * k) ≤ n / 128 := by
      rw [Nat.le_div_iff_mul_le (by norm_num)]
      calc 2 ^ (7 * k) * 128 = 2 ^ (7 * k) * 2 ^ 7 := by norm_num
        _ = 2 ^ (7 * (k + 1)) := by rw [← pow_add]; ring_nf
        _ ≤ n := hlo
    have hdhi : n / 128 < 2 ^ (7 * (k + 1)) := by
      rw [Nat.div_lt_iff_lt_mul (by norm_num)]
      calc n < 2 ^ (7 * (k + 2)) := hhi
        _ = 2 ^ (7 * (k + 1)) * 2 ^ 7 := by rw [← pow_add]; ring_nf
        _ = 2 ^ (7 * (k + 1)) * 128 := by norm_num
    simp [ih (n / 128) hdlo hdhi]

/-- For every value a Go `uint64` can hold ( a fortiori every length in
this development), the declared `UVariantLen` equals the byte count
actually emitted by `binary.PutUvarint`. -/
theorem uvarintEncode_length {n : Nat} (h : n < 2 ^ 63) :
    (uvarintEncode n).length = UVariantLen n := by
  unfold UVariantLen
  by_cases h1 : n < 2 ^ 7
  · rw [if_pos h1]
    rcases Nat.eq_zero_or_pos n with h0 | h0
    · subst h0
      rw [uvarintEncode_small (by norm_num)]
      rfl
    · exact uvarintEncode_length_exact 0 n (by simpa using h0) (by norm_num at h1 ⊢; omega)
  · rw [if_neg h1]
    by_cases h2 : n < 2 ^ 14
    · rw [if_pos h2]
      exact uvarintEncode_length_exact 1 n (by norm_num at h1 ⊢; omega) (by norm_num at h2 ⊢; omega)
    rw [if_neg h2]
    by_cases h3 : n < 2 ^ 21
    · rw [if_pos h3]
      exact uvarintEncode_length_exact 2 n (by norm_num at h2 ⊢; omega) (by norm_num at h3 ⊢; omega)
    rw [if_neg h3]
    by_cases h4 : n < 2 ^ 28
    · rw [if_pos h4]
      exact uvarintEncode_length_exact 3 n (by norm_num at h3 ⊢; omega) (by norm_num at h4 ⊢; omega)
    rw [if_neg h4]
    by_cases h5 : n < 2 ^ 35
    · rw [if_pos h5]
      exact uvarintEncode_length_exact 4 n (by norm_num at h4 ⊢; omega) (by norm_num at h5 ⊢; omega)
    rw [if_neg h5]
    by_cases h6 : n < 2 ^ 42
    · rw [if_pos h6]
      exact uvarintEncode_length_exact 5 n (by norm_num at h5 ⊢; omega) (by norm_num at h6 ⊢; omega)
    rw [if_neg h6]
    by_cases h7 : n < 2 ^ 49
    · rw [if_pos h7]
      exact uvarintEncode_length_exact 6 n (by norm_num at h6 ⊢; omega) (by norm_num at h7 ⊢; omega)
    rw [if_neg h7]
    by_cases h8 : n < 2 ^ 56
    · rw [if_pos h8]
      exact uvarintEncode_length_exact 7 n (by norm_num at h7 ⊢; omega) (by norm_num at h8 ⊢; omega)
    rw [if_neg h8]
    rw [if_pos h]
    exact uvarintEncode_length_exact 8 n (by norm_num at h8 ⊢; omega) (by norm_num at h ⊢; omega)

theorem UVariantLen_le_ten (n : Nat) : UVariantLen n ≤ 10 := by
  unfold UVariantLen
  split_ifs <;> omega

theorem or_low_eq_add {x y s : Nat} (hx : x < 2 ^ s) : x ||| y * 2 ^ s = x + y * 2 ^ s := by
  have h := Nat.mul_add_lt_is_or hx y
  rw [Nat.lor_comm, Nat.mul_comm]
  omega

theorem readUvarintFrom_encode (n : Nat) :
    ∀ x s i rest, i ≤ 9 → s = 7 * i → x < 2 ^ s → n < 2 ^ (64 - s) →
      readUvarintFrom (uvarintEncode n ++ rest) x s i = .ok (x + n * 2 ^ s, rest) := by
  induction n using Nat.strong_induction_on with
  | _ n IH =>
    intro x s i rest hi hs hx hn
    have hs64 : s ≤ 63 := by omega
    by_cases h : n < 128
    · rw [uvarintEncode_small h, List.cons_append, List.nil_append, readUvarintFrom]
      rw [if_pos h]
      have hshift : (n <<< s) % 2 ^ 64 = n * 2 ^ s := by
        rw [Nat.shiftLeft_eq, Nat.mod_eq_of_lt]
        calc n * 2 ^ s < 2 ^ (64 - s) * 2 ^ s :=
              mul_lt_mul_of_pos_right hn (Nat.two_pow_pos s)
          _ = 2 ^ 64 := by rw [← pow_add]; congr 1; omega
      have hnotb : ¬(i = 9 ∧ n > 1) := by
        rintro ⟨h9, hgt⟩
        subst h9
        have : s = 63 := by omega
        subst this
        norm_num at hn
        omega
      rw [if_neg hnotb, hshift, or_low_eq_add hx]
    · push_neg at h
      rw [uvarintEncode_large h, List.cons_append, readUvarintFrom]
      have hb : ¬(n % 128 + 128 < 128) := by omega
      rw [if_neg hb]
      have hi9 : i ≠ 9 := by
        intro h9
        subst h9
        have hsv : s = 63 := by omega
        subst hsv
        norm_num at hn
        omega
      rw [if_neg hi9]
      have hmod : (n % 128 + 128) % 128 = n % 128 := by omega
      have hshift : ((n % 128) <<< s) % 2 ^ 64 = n % 128 * 2 ^ s := by
        rw [Nat.shiftLeft_eq, Nat.mod_eq_of_lt]
        calc n % 128 * 2 ^ s < 128 * 2 ^ s :=
              mul_lt_mul_of_pos_right (Nat.mod_lt _ (by norm_num)) (Nat.two_pow_pos s)
          _ = 2 ^ (7 + s) := by rw [pow_add]; norm_num
          _ ≤ 2 ^ 64 := Nat.pow_le_pow_right (by norm_num) (by omega)
      rw [hmod, hshift, or_low_eq_add hx]
      have hi8 : i ≤ 8 := by omega
      have hs56 : s ≤ 56 := by omega
      have hrec := IH (n / 128) (Nat.div_lt_self (by omega) (by norm_num))
        (x + n % 128 * 2 ^ s) (s + 7) (i + 1) rest (by omega) (by omega)
        (by
          have h1 : n % 128 ≤ 127 := by omega
          have h2 : n % 128 * 2 ^ s ≤ 127 * 2 ^ s :=
            Nat.mul_le_mul_right _ h1
          calc x + n % 128 * 2 ^ s < 2 ^ s + 127 * 2 ^ s := by omega
            _ = 2 ^ s * 2 ^ 7 := by ring
            _ = 2 ^ (s + 7) := by rw [← pow_add]
        )
        (by
          rw [Nat.div_lt_iff_lt_mul (by norm_num : (0:Nat) < 128)]
          calc n < 2 ^ (64 - s) := hn
            _ = 2 ^ (64 - (s + 7)) * 128 := by
              rw [show (128 : Nat) = 2 ^ 7 by norm_num, ← pow_add]
              congr 1
              omega
        )
      rw [hrec]
      congr 2
      have hd : n % 128 + 128 * (n / 128) = n := Nat.mod_add_div n 128
      calc x + n % 128 * 2 ^ s + n / 128 * 2 ^ (s + 7)
          = x + n % 128 * 2 ^ s + n / 128 * (2 ^ s * 2 ^ 7) := by rw [pow_add]
        _ = x + (n % 128 + 128 * (n / 128)) * 2 ^ s := by ring
        _ = x + n * 2 ^ s := by rw [hd]

/-- Decoding inverts the varint encoding for every `uint64` value. -/
theorem readUvarint_encode {n : Nat} (h : n < 2 ^ 64) (rest : List Nat) :
    readUvarint (uvarintEncode n ++ rest) = .ok (n, rest) := by
  have := readUvarintFrom_encode n 0 0 0 rest (by omega) (by omega) (by norm_num) (by simpa using h)
  simpa [readUvarint] using this

/-! ## Address serializer lemmas -/

theorem writeAddrPort_length {d : Socksaddr} (hwf : d.wf = true) {ab : List Nat}
    (h : writeAddrPort d = .ok ab) : ab.length = addrPortLen d := by
  cases d with
  | empty => simp [writeAddrPort] at h
  | ipv4 a p =>
    simp only [writeAddrPort, Except.ok.injEq] at h
    simp only [Socksaddr.wf, Bool.and_eq_true, beq_iff_eq, decide_eq_true_eq] at hwf
    subst h
    simp [u16be, addrPortLen, hwf.1.1]
  | ipv6 a p =>
    simp only [writeAddrPort, Except.ok.injEq] at h
    simp only [Socksaddr.wf, Bool.and_eq_true, beq_iff_eq, decide_eq_true_eq] at hwf
    subst h
    simp [u16be, addrPortLen, hwf.1.1]
  | fqdn n p =>
    simp only [writeAddrPort] at h
    split at h
    · exact absurd h (by simp)
    · simp only [Except.ok.injEq] at h
      subst h
      simp [u16be, addrPortLen]
      omega

theorem readAddrPort_writeAddrPort {d : Socksaddr} (hwf : d.wf = true) {ab : List Nat}
    (h : writeAddrPort d = .ok ab) (rest : List Nat) :
    readAddrPort (ab ++ rest) = .ok (d, rest) := by
  cases d with
  | empty => simp [writeAddrPort] at h
  | ipv4 a p =>
    simp only [writeAddrPort, Except.ok.injEq] at h
    simp only [Socksaddr.wf, Bool.and_eq_true, beq_iff_eq, decide_eq_true_eq] at hwf
    subst h
    have hp : p / 256 % 256 = p / 256 := Nat.mod_eq_of_lt (by omega)
    simp only [readAddrPort, u16be, List.cons_append, List.nil_append]
    rw [show readFull 2 (p / 256 % 256 :: p % 256 :: (1 :: (a ++ rest))) =
          .ok ([p / 256 % 256, p % 256], 1 :: (a ++ rest)) from
        readFull_append [p / 256 % 256, p % 256] _ rfl]
    simp only [ok_bind, List.headI, List.tailD]
    rw [hp]
    have hport : p / 256 * 256 + p % 256 = p := by omega
    simp only [readByte, List.cons_append, ok_bind, if_pos rfl, hport]
    rw [readFull_append a rest hwf.1.1]
    simp

  | ipv6 a p =>
    simp only [writeAddrPort, Except.ok.injEq] at h
    simp only [Socksaddr.wf, Bool.and_eq_true, beq_iff_eq, decide_eq_true_eq] at hwf
    subst h
    have hp : p / 256 % 256 = p / 256 := Nat.mod_eq_of_lt (by omega)
    simp only [readAddrPort, u16be, List.cons_append, List.nil_append]
    rw [show readFull 2 (p / 256 % 256 :: p % 256 :: (3 :: (a ++ rest))) =
          .ok ([p / 256 % 256, p % 256], 3 :: (a ++ rest)) from
        readFull_append [p / 256 % 256, p % 256] _ rfl]
    simp only [ok_bind, List.headI, List.tailD]
    rw [hp]
    have hport : p / 256 * 256 + p % 256 = p := by omega
    simp only [readByte, List.cons_append, ok_bind, hport]
    rw [if_neg (by norm_num), if_pos trivial]
    rw [readFull_append a rest hwf.1.1]
    simp
  | fqdn nm p =>
    simp only [writeAddrPort] at h
    split at h
    · exact absurd h (by simp)
    · simp only [Except.ok.injEq] at h
      simp only [Socksaddr.wf, Bool.and_eq_true, beq_iff_eq, decide_eq_true_eq] at hwf
      subst h
      have hp : p / 256 % 256 = p / 256 := Nat.mod_eq_of_lt (by omega)
      simp only [readAddrPort, u16be, List.cons_append, List.nil_append]
      rw [show readFull 2 (p / 256 % 256 :: p % 256 :: (2 :: nm.length :: (nm ++ rest))) =
            .ok ([p / 256 % 256, p % 256], 2 :: nm.length :: (nm ++ rest)) from
          readFull_append [p / 256 % 256, p % 256] _ rfl]
      simp only [ok_bind, List.headI, List.tailD]
      rw [hp]
      have hport : p / 256 * 256 + p % 256 = p := by omega
      simp only [readByte, List.cons_append, ok_bind, hport]
      rw [if_neg (by norm_num), if_neg (by norm_num), if_pos trivial]
      rw [readFull_append nm rest rfl]
      simp

/-! ## Addon-block length bridge -/

theorem requestAddonLen_le (r : Request) :
    requestAddonLen r ≤ 22 + r.flow.length + (r.vpplDestAddr.getD []).length := by
  obtain ⟨u, c, d, flow, vppl⟩ := r
  have h1 := UVariantLen_le_ten flow.length
  cases vppl with
  | none =>
    have h2 := UVariantLen_le_ten 0
    simp only [requestAddonLen]
    split_ifs <;> omega
  | some b =>
    have h2 := UVariantLen_le_ten b.length
    simp only [requestAddonLen]
    split_ifs <;> first | omega | (simp_all; omega)

theorem requestAddonLen_lt (r : Request) (hf : r.flow.length < 2 ^ 32)
    (hv : (r.vpplDestAddr.getD []).length < 2 ^ 32) : requestAddonLen r < 2 ^ 63 := by
  have h := requestAddonLen_le r
  have e1 : (2 : Nat) ^ 32 = 4294967296 := by norm_num
  have e2 : (2 : Nat) ^ 63 = 9223372036854775808 := by norm_num
  omega

theorem addonsBlock_length (r : Request) (hf : r.flow.length < 2 ^ 32)
    (hv : (r.vpplDestAddr.getD []).length < 2 ^ 32) :
    (addonsBlock r).length = requestAddonLen r := by
  unfold addonsBlock
  by_cases h : requestAddonLen r > 0
  · rw [if_pos h]
    have hflen : (uvarintEncode r.flow.length).length = UVariantLen r.flow.length :=
      uvarintEncode_length (by
        have e1 : (2 : Nat) ^ 32 = 4294967296 := by norm_num
        have e2 : (2 : Nat) ^ 63 = 9223372036854775808 := by norm_num
        omega)
    conv_rhs => unfold requestAddonLen
    have hne : r.flow ≠ [] ∨ r.vpplDestAddr ≠ none := by
      by_contra hcon
      push_neg at hcon
      unfold requestAddonLen at h
      rw [if_neg (by push_neg; exact hcon)] at h
      omega
    rw [if_pos hne]
    have hifflow : (if r.flow ≠ [] then r.flow.length else 0) = r.flow.length := by
      split_ifs with hfe
      · rfl
      · push_neg at hfe
        simp [hfe]
    rw [hifflow]
    cases hvv : r.vpplDestAddr with
    | none =>
      have : UVariantLen 0 = 1 := by norm_num [UVariantLen]
      simp [hvv, hflen, this]
      omega
    | some b =>
      have hblen : (uvarintEncode b.length).length = UVariantLen b.length :=
        uvarintEncode_length (by
          rw [hvv] at hv
          have e1 : (2 : Nat) ^ 32 = 4294967296 := by norm_num
          have e2 : (2 : Nat) ^ 63 = 9223372036854775808 := by norm_num
          simp only [Option.getD_some] at hv
          omega)
      simp [hvv, hflen, hblen]
      omega
  · rw [if_neg h]
    simp only [List.length_nil]
    omega

/-- **C1.** For every well-formed `Request` and every payload, a
successful encode followed by the payload has length exactly
`RequestLen r + payload.length`. -/
theorem encodeRequest_length (r : Request) (payload : List Nat) (b : List Nat)
    (hu : r.uuid.length = 16)
    (hf : r.flow.length < 2 ^ 32)
    (hv : (r.vpplDestAddr.getD []).length < 2 ^ 32)
    (hwf : r.destination.wf = true)
    (hb : encodeRequest r = .ok b) :
    (b ++ payload).length = requestLen r + payload.length := by
  have haddons := addonsBlock_length r hf hv
  have haL : (uvarintEncode (requestAddonLen r)).length = UVariantLen (requestAddonLen r) :=
    uvarintEncode_length (requestAddonLen_lt r hf hv)
  unfold encodeRequest at hb
  by_cases hc : r.command ≠ CommandMux
  · rw [if_pos hc] at hb
    cases hw : writeAddrPort r.destination with
    | error e =>
      rw [hw] at hb
      simp at hb
    | ok ab =>
      rw [hw] at hb
      simp only [ok_bind, pure_eq_ok, Except.ok.injEq] at hb
      subst hb
      have hab := writeAddrPort_length hwf hw
      simp only [requestLen, if_pos hc, List.length_append, List.length_cons, hu, haddons,
        haL, hab]
      omega
  · rw [if_neg hc] at hb
    simp only [pure_eq_ok, ok_bind, Except.ok.injEq] at hb
    subst hb
    simp only [requestLen, if_neg hc, List.length_append, List.length_cons, hu, haddons, haL,
      List.length_nil]
    omega

/-! ## Decode-of-encode (round trip) -/

theorem requestAddonLen_pos (r : Request) (hne : r.flow ≠ [] ∨ r.vpplDestAddr ≠ none) :
    0 < requestAddonLen r := by
  unfold requestAddonLen
  rw [if_pos hne]
  omega

theorem flowLen_lt_64 {r : Request} (hf : r.flow.length < 2 ^ 32) : r.flow.length < 2 ^ 64 := by
  have e1 : (2 : Nat) ^ 32 = 4294967296 := by norm_num
  have e2 : (2 : Nat) ^ 64 = 18446744073709551616 := by norm_num
  omega

theorem readAddons_addonsBlock (r : Request)
    (hf : r.flow.length < 2 ^ 32) (hv : (r.vpplDestAddr.getD []).length < 2 ^ 32)
    (hne : r.flow ≠ [] ∨ r.vpplDestAddr ≠ none) :
    readAddons (addonsBlock r) = .ok ⟨r.flow, some (r.vpplDestAddr.getD [])⟩ := by
  have hpos := requestAddonLen_pos r hne
  unfold addonsBlock
  rw [if_pos hpos]
  unfold readAddons
  simp only [readByte, ok_bind]
  rw [if_neg (by norm_num)]
  rw [List.append_assoc]
  rw [readUvarint_encode (flowLen_lt_64 hf)]
  simp only []
  rw [readFull_append r.flow _ rfl]
  simp only [ok_bind]
  cases hvv : r.vpplDestAddr with
  | none =>
    simp only [readByte]
    rw [if_neg (by norm_num)]
    have h0 : readUvarint [0] = .ok (0, []) := by decide
    rw [h0]
    simp [readFull, hvv]
  | some vb =>
    simp only [readByte]
    rw [if_neg (by norm_num)]
    have hvb : vb.length < 2 ^ 64 := by
      rw [hvv] at hv
      simp only [Option.getD_some] at hv
      have e1 : (2 : Nat) ^ 32 = 4294967296 := by norm_num
      have e2 : (2 : Nat) ^ 64 = 18446744073709551616 := by norm_num
      omega
    rw [readUvarint_encode hvb]
    simp only [ok_bind]
    rw [readFull_all vb]
    simp [hvv]

/-- **C2 (amended).** Decoding an encoded `Request` that carries a
non-empty flow or a non-`nil` obfuscated destination recovers every
field and leaves exactly the payload on the stream, except that the
obfuscated destination always comes back *present* (`some`): a `nil`
(`none`) obfuscated destination alongside a non-empty flow is decoded as
the present-but-empty blob, because the encoder always writes tag 18
with a zero-length varint once the optional block is non-empty. -/
theorem readRequest_encodeRequest (r : Request) (payload b : List Nat)
    (hu : r.uuid.length = 16)
    (hf : r.flow.length < 2 ^ 32)
    (hv : (r.vpplDestAddr.getD []).length < 2 ^ 32)
    (hwf : r.destination.wf = true)
    (hne : r.flow ≠ [] ∨ r.vpplDestAddr ≠ none)
    (hmux : r.command = CommandMux → r.destination = .empty)
    (hb : encodeRequest r = .ok b) :
    readRequest (b ++ payload) =
      .ok ({r with vpplDestAddr := some (r.vpplDestAddr.getD [])}, payload) := by
  have hpos := requestAddonLen_pos r hne
  have haL64 : requestAddonLen r < 2 ^ 64 := by
    have h := requestAddonLen_lt r hf hv
    have e2 : (2 : Nat) ^ 63 = 9223372036854775808 := by norm_num
    have e3 : (2 : Nat) ^ 64 = 18446744073709551616 := by norm_num
    omega
  have haddons := addonsBlock_length r hf hv
  have hra := readAddons_addonsBlock r hf hv hne
  unfold encodeRequest at hb
  by_cases hc : r.command ≠ CommandMux
  · rw [if_pos hc] at hb
    cases hw : writeAddrPort r.destination with
    | error e =>
      rw [hw] at hb
      simp at hb
    | ok ab =>
      rw [hw] at hb
      simp only [ok_bind, pure_eq_ok, Except.ok.injEq] at hb
      subst hb
      have hrd := readAddrPort_writeAddrPort hwf hw payload
      unfold readRequest
      simp only [List.cons_append, List.append_assoc]
      simp only [readByte, ok_bind]
      rw [if_neg (by simp [Version])]
      rw [readFull_append r.uuid _ hu]
      simp only [ok_bind]
      rw [readUvarint_encode haL64]
      simp only [ok_bind]
      rw [if_pos hpos]
      rw [readFull_append (addonsBlock r) _ haddons]
      simp only [ok_bind]
      rw [hra]
      simp only [ok_bind, pure_eq_ok, readByte]
      rw [if_pos hc]
      rw [hrd]
      simp
  · rw [if_neg hc] at hb
    push_neg at hc
    simp only [pure_eq_ok, ok_bind, Except.ok.injEq] at hb
    subst hb
    unfold readRequest
    simp only [List.cons_append, List.append_assoc, List.nil_append]
    simp only [readByte, ok_bind]
    rw [if_neg (by simp [Version])]
    rw [readFull_append r.uuid _ hu]
    simp only [ok_bind]
    rw [readUvarint_encode haL64]
    simp only [ok_bind]
    rw [if_pos hpos]
    rw [readFull_append (addonsBlock r) _ haddons]
    simp only [ok_bind]
    rw [hra]
    simp only [ok_bind, pure_eq_ok, readByte]
    rw [if_neg (by simp [hc])]
    simp [hmux hc, hc]

/-! ## Concrete instances for the encode/decode claims -/

def c1req : Request :=
  ⟨List.replicate 16 7, CommandTCP, .fqdn [101, 120, 46, 99, 111, 109] 443, [120], some [9, 9]⟩

def c1bytes : List Nat := (encodeRequest c1req).toOption.getD []

theorem encodeRequest_length_witness :
    encodeRequest c1req = .ok c1bytes ∧
      (c1bytes ++ [71, 69, 84]).length = requestLen c1req + [71, 69, 84].length :=
  ⟨by decide,
    encodeRequest_length c1req [71, 69, 84] c1bytes (by decide) (by decide) (by decide)
      (by decide) (by decide)⟩

def c2req : Request :=
  ⟨List.replicate 16 1, CommandTCP, .ipv4 [10, 0, 0, 1] 8080, [118], some [200, 201]⟩

def c2bytes : List Nat := (encodeRequest c2req).toOption.getD []

theorem readRequest_encodeRequest_witness :
    encodeRequest c2req = .ok c2bytes ∧
      readRequest (c2bytes ++ [5, 6, 7]) =
        .ok ({c2req with vpplDestAddr := some [200, 201]}, [5, 6, 7]) :=
  ⟨by decide,
    readRequest_encodeRequest c2req [5, 6, 7] c2bytes (by decide) (by decide) (by decide)
      (by decide) (by decide) (by decide) (by decide)⟩

def c2cexReq : Request :=
  ⟨List.replicate 16 0, CommandTCP, .ipv4 [127, 0, 0, 1] 80, [97], none⟩

def c2cexBytes : List Nat := (encodeRequest c2cexReq).toOption.getD []

/-- **C2 (counterexample).** A `Request` with a non-empty flow and a
`nil` obfuscated destination does *not* round-trip as claimed: the
decoder returns the obfuscated destination as a present-but-empty blob
(`some []`), not `nil`, so the nil/empty distinction is lost. -/
theorem readRequest_encodeRequest_counterexample :
    encodeRequest c2cexReq = .ok c2cexBytes ∧
      readRequest c2cexBytes = .ok ({c2cexReq with vpplDestAddr := some []}, []) ∧
      ({c2cexReq with vpplDestAddr := some []} : Request) ≠ c2cexReq := by
  refine ⟨by decide, ?_, by decide⟩
  have h := readRequest_encodeRequest c2cexReq [] c2cexBytes (by decide) (by decide) (by decide)
    (by decide) (by decide) (by decide) (by decide)
  simpa using h

/-! ## Responses -/

/-- **C8.** Decoding a response whose version byte matches and whose
trailing-length byte is `N > 0` succeeds and consumes exactly the `N`
trailing bytes whatever their content, leaving the stream positioned
right after them; a mismatched version byte fails the decode. -/
theorem readResponse_spec (n v : Nat) (junk rest : List Nat)
    (hlen : junk.length = n) (hn : 0 < n) (hv : v ≠ 0) :
    readResponse (Version :: n :: (junk ++ rest)) = .ok rest ∧
      readResponse (v :: n :: (junk ++ rest)) = .error (.badVersion v) := by
  constructor
  · unfold readResponse
    simp only [readByte, ok_bind, Version]
    rw [if_neg (by norm_num)]
    rw [if_pos hn]
    unfold skipN
    rw [if_pos (by simp [← hlen])]
    rw [List.drop_left' hlen]
    rfl
  · unfold readResponse
    simp only [readByte, ok_bind, Version]
    rw [if_pos hv]
    rfl

theorem readResponse_spec_witness :
    readResponse (Version :: 3 :: ([250, 251, 252] ++ [9, 8])) = .ok [9, 8] ∧
      readResponse (7 :: 3 :: ([250, 251, 252] ++ [9, 8])) = .error (.badVersion 7) :=
  readResponse_spec 3 7 [250, 251, 252] [9, 8] (by decide) (by decide) (by decide)

/-! ## Packet requests -/

/-- **C10.** `WritePacketRequest` always writes the UDP command byte
regardless of the request command, always writes a zero addon-length
byte and never emits an optional-fields block (the flow tag is silently
dropped), and a non-empty payload is preceded by its length as a 2-byte
big-endian integer. -/
theorem writePacketRequest_spec (r : Request) (payload ab : List Nat)
    (hp : payload.length < 65536)
    (hab : writeAddrPort r.destination = .ok ab) :
    writePacketRequest r payload =
      .ok (Version :: (r.uuid ++ 0 :: CommandUDP :: ab ++
        (if payload.length > 0 then
          [payload.length / 256, payload.length % 256] ++ payload
         else []))) := by
  unfold writePacketRequest
  rw [hab]
  simp only [ok_bind, pure_eq_ok, Except.ok.injEq]
  have h16 : payload.length % 2 ^ 16 = payload.length := Nat.mod_eq_of_lt (by norm_num; omega)
  rw [h16]
  have hd : payload.length / 256 % 256 = payload.length / 256 := Nat.mod_eq_of_lt (by omega)
  simp [u16be, hd]

theorem writePacketRequest_spec_witness :
    writePacketRequest
        ⟨List.replicate 16 4, CommandMux, .ipv4 [8, 8, 8, 8] 53, [118, 105], none⟩ [77, 78] =
      .ok (Version :: (List.replicate 16 4 ++ 0 :: CommandUDP :: [0, 53, 1, 8, 8, 8, 8] ++
        ([0, 2] ++ [77, 78]))) := by
  have h := writePacketRequest_spec
    ⟨List.replicate 16 4, CommandMux, .ipv4 [8, 8, 8, 8] 53, [118, 105], none⟩ [77, 78]
    [0, 53, 1, 8, 8, 8, 8] (by decide) (by decide)
  simpa using h

/-! ## Outbound dial orchestration (`outbound/vless.go`)

The adapter state, configuration and control flow are translated from
`NewVLESS`, `VLESS.DialContext`, `vlessDialer.DialContext` and
`vlessDialer.ListenPacket`.  External collaborators (the stream dialer,
TLS, the v2ray transport, RSA, `M.Socksaddr.String`, and the
`vless.Client` early-dial constructors, whose `client.go` is not part of
this repository snapshot) are modelled as parameters carrying the
outcome of the single dial attempt under consideration; socket-level
effects are recorded as an event trace. -/

/-- An RSA public key (`rsa.PublicKey`), opaque to this development. -/
structure PubKey where
  n : Nat
  e : Nat
  deriving DecidableEq, Repr

inductive DErr where
  | external (tag : Nat)
  | noPublicKey
  | vpplTransport
  | unknownPacketEncoding
  | vpplDestEmpty
  | packetaddrDomain
  | unknownNetwork
  deriving DecidableEq, Repr

/-- `VLESSVPPL`: the anchor-extension configuration held by the adapter. -/
structure VPPLConfig where
  enabled : Bool
  proxy : Bool
  address : Socksaddr
  key : Option PubKey
  deriving DecidableEq, Repr

/-- The mutable fields of the `VLESS` outbound adapter value that the
dial path reads or writes (`dialer`, `client`, `logger` and the other
purely external handles are collaborators, represented by `Ext`). -/
structure Adapter where
  serverAddr : Socksaddr
  vppl : VPPLConfig
  originDest : Option (List Nat)
  packetAddr : Bool
  xudp : Bool
  hasTransport : Bool
  hasTLS : Bool
  hasMultiplex : Bool
  deriving DecidableEq, Repr

inductive Net where
  | tcp
  | udp
  | other
  deriving DecidableEq, Repr

/-- Socket-level events of one dial attempt, in program order. -/
inductive Ev where
  | transportDial
  | dialTCP (server : Socksaddr)
  | tlsHandshake
  | closeConn
  | earlyConn (dest : Socksaddr) (originDest : Option (List Nat))
  | earlyXUDP (dest : Socksaddr) (originDest : Option (List Nat))
  | earlyPacket (dest : Socksaddr)
  | muxDial
  deriving DecidableEq, Repr

/-- The connection handle a successful dial returns, recording the
handshake parameters the wrapped connection will emit.  Modelled from
the spec: `DialEarlyConn`/`DialEarlyXUDPPacketConn` build a framed
connection whose Request carries the declared destination, the client
flow and `originDest` as the obfuscated destination (`client.go` is not
in the source snapshot). -/
inductive Handle where
  | stream (dest : Socksaddr) (vpplDest : Option (List Nat))
  | xudpPacket (dest : Socksaddr) (vpplDest : Option (List Nat))
  | packetAddrConn (dest : Socksaddr)
  | plainPacket (dest : Socksaddr)
  | mux (dest : Socksaddr)
  deriving DecidableEq, Repr

/-- Outcomes of the external collaborators during one dial attempt. -/
structure Ext where
  destString : Socksaddr → List Nat
  encrypt : Option PubKey → List Nat → Except DErr (List Nat)
  transportDial : Except DErr Unit
  dial : Socksaddr → Except DErr Unit
  tls : Except DErr Unit
  dialEarlyConn : Except DErr Unit
  dialEarlyXUDP : Except DErr Unit
  dialEarlyPacket : Except DErr Unit
  mux : Except DErr Unit

def strBytes (s : String) : List Nat := s.toList.map Char.toNat

/-- `packetaddr.SeqPacketMagicAddress`. -/
def seqPacketMagicAddress : List Nat := strBytes "sp.packet-addr.v2fly.arpa"

/-- The stream-acquisition stage shared verbatim by
`vlessDialer.DialContext` and `vlessDialer.ListenPacket` (lines 221–234
and 290–299): a transport dial when a transport is configured, otherwise
a TCP dial to the server address — or to the caller destination when the
anchor extension runs in proxy (RelayPassthrough) mode — followed by the
TLS client handshake when TLS is configured. -/
def acquireConn (h : Adapter) (ext : Ext) (destination : Socksaddr) :
    Except DErr Unit × List Ev :=
  if h.hasTransport then (ext.transportDial, [.transportDial])
  else
    let server := if h.vppl.enabled && h.vppl.proxy then destination else h.serverAddr
    match ext.dial server with
    | .error e => (.error e, [.dialTCP server])
    | .ok _ =>
      if h.hasTLS then (ext.tls, [.dialTCP server, .tlsHandshake])
      else (.ok (), [.dialTCP server])

/-- `vlessDialer.DialContext` (lines 215–262).  On any failure after the
stream has been acquired — early-conn handshake construction failure,
the packetaddr domain rejection, an unknown network — the function
returns the error without closing the acquired stream. -/
def vlessDialerDialContext (h : Adapter) (ext : Ext) (network : Net)
    (destination : Socksaddr) : Except DErr Handle × List Ev :=
  let acq := acquireConn h ext destination
  match acq.1 with
  | .error e => (.error e, acq.2)
  | .ok _ =>
    match network with
    | .tcp =>
      match ext.dialEarlyConn with
      | .error e => (.error e, acq.2 ++ [.earlyConn destination h.originDest])
      | .ok _ =>
        (.ok (.stream destination h.originDest), acq.2 ++ [.earlyConn destination h.originDest])
    | .udp =>
      if h.xudp then
        match ext.dialEarlyXUDP with
        | .error e => (.error e, acq.2 ++ [.earlyXUDP destination h.originDest])
        | .ok _ =>
          (.ok (.xudpPacket destination h.originDest),
            acq.2 ++ [.earlyXUDP destination h.originDest])
      else if h.packetAddr then
        if destination.isFqdn then (.error .packetaddrDomain, acq.2)
        else
          match ext.dialEarlyPacket with
          | .error e => (.error e, acq.2 ++ [.earlyPacket (.fqdn seqPacketMagicAddress 0)])
          | .ok _ =>
            (.ok (.packetAddrConn destination),
              acq.2 ++ [.earlyPacket (.fqdn seqPacketMagicAddress 0)])
      else
        match ext.dialEarlyPacket with
        | .error e => (.error e, acq.2 ++ [.earlyPacket destination])
        | .ok _ => (.ok (.plainPacket destination), acq.2 ++ [.earlyPacket destination])
    | .other => (.error .unknownNetwork, acq.2)

/-- `vlessDialer.ListenPacket` (lines 284–301).  Unlike `DialContext`,
an acquisition-stage failure here runs `common.Close(conn)` before the
error is returned; post-acquisition failures still do not close. -/
def vlessDialerListenPacket (h : Adapter) (ext : Ext) (destination : Socksaddr) :
    Except DErr Handle × List Ev :=
  let acq := acquireConn h ext destination
  match acq.1 with
  | .error e => (.error e, acq.2 ++ [.closeConn])
  | .ok _ =>
    if h.xudp then
      match ext.dialEarlyXUDP with
      | .error e => (.error e, acq.2 ++ [.earlyXUDP destination h.originDest])
      | .ok _ =>
        (.ok (.xudpPacket destination h.originDest),
          acq.2 ++ [.earlyXUDP destination h.originDest])
    else if h.packetAddr then
      if destination.isFqdn then (.error .packetaddrDomain, acq.2)
      else
        match ext.dialEarlyPacket with
        | .error e => (.error e, acq.2 ++ [.earlyPacket (.fqdn seqPacketMagicAddress 0)])
        | .ok _ =>
          (.ok (.packetAddrConn destination),
            acq.2 ++ [.earlyPacket (.fqdn seqPacketMagicAddress 0)])
    else
      match ext.dialEarlyPacket with
      | .error e => (.error e, acq.2 ++ [.earlyPacket destination])
      | .ok _ => (.ok (.plainPacket destination), acq.2 ++ [.earlyPacket destination])

/-- The tail of `VLESS.DialContext` (lines 166–183): either the direct
`vlessDialer` path or the external multiplexed-session provider. -/
def dialTail (h : Adapter) (ext : Ext) (network : Net) (destination : Socksaddr) :
    Except DErr Handle × List Ev :=
  if !h.hasMultiplex then vlessDialerDialContext h ext network destination
  else
    match ext.mux with
    | .error e => (.error e, [.muxDial])
    | .ok _ => (.ok (.mux destination), [.muxDial])

/-- `VLESS.DialContext` (lines 145–183).  When the anchor extension is
enabled in ClientEncrypt mode the method first stores the plaintext
destination string into the shared adapter field `originDest`, then
overwrites it with the RSA-encrypted blob and redirects the declared
destination to the configured VPPL address; in proxy (RelayPassthrough)
mode it requires the inbound context blob and stores it.  The returned
`Adapter` is the adapter value after the call — the source mutates the
shared `*VLESS` receiver in place. -/
def vlessDialContext (h : Adapter) (ext : Ext) (ctxVPPLDestination : List Nat)
    (network : Net) (destination : Socksaddr) :
    (Except DErr Handle × List Ev) × Adapter :=
  if h.vppl.enabled then
    if !h.vppl.proxy then
      let h1 := {h with originDest := some (ext.destString destination)}
      match ext.encrypt h.vppl.key (ext.destString destination) with
      | .error e => ((.error e, []), h1)
      | .ok encDest =>
        let h2 := {h1 with originDest := some encDest}
        (dialTail h2 ext network h.vppl.address, h2)
    else
      if ctxVPPLDestination.length = 0 then ((.error .vpplDestEmpty, []), h)
      else
        let h2 := {h with originDest := some ctxVPPLDestination}
        (dialTail h2 ext network destination, h2)
  else (dialTail h ext network destination, h)

/-! ## Adapter construction (`NewVLESS`, lines 53–143) -/

structure VPPLOutboundOptions where
  enabled : Bool
  key : List Nat
  proxy : Bool
  host : List Nat
  port : Nat
  deriving DecidableEq, Repr

structure VLESSOutboundOptions where
  server : List Nat
  serverPort : Nat
  uuid : List Nat
  flow : List Nat
  hasTLS : Bool
  hasTransport : Bool
  packetEncoding : Option (List Nat)
  hasMultiplex : Bool
  vppl : VPPLOutboundOptions
  deriving DecidableEq, Repr

/-- Modelled abstraction of the external `M.ParseSocksaddrHostPort`: it
never fails; an empty host gives the zero `Socksaddr` (no IP, empty
Fqdn), a non-empty host gives an address carrying the host bytes and
the `uint16`-cast port.  Which `Socksaddr` constructor a non-empty host
maps to is irrelevant to every claim below. -/
def parseSocksaddrHostPort (host : List Nat) (port : Nat) : Socksaddr :=
  if host.isEmpty then .empty else .fqdn host (port % 65536)

/-- `NewVLESS` (lines 53–143): the construction-time checks, in source
order.  `parseKey` models the external PEM + PKIX public-key parsing;
`newClient` models `vless.NewClient` (UUID parsing; not in the source
snapshot); `dialer.New`, TLS client construction, the v2ray transport
and `mux.NewClientWithOptions` are external collaborators whose
construction outcomes do not depend on the VPPL options. -/
def newVLESS (parseKey : List Nat → Except DErr PubKey)
    (newClient : List Nat → List Nat → Except DErr Unit)
    (o : VLESSOutboundOptions) : Except DErr Adapter := do
  let base : Adapter :=
    { serverAddr := parseSocksaddrHostPort o.server o.serverPort
      vppl := ⟨false, false, .empty, none⟩
      originDest := none
      packetAddr := false
      xudp := false
      hasTransport := o.hasTransport
      hasTLS := o.hasTLS
      hasMultiplex := o.hasMultiplex }
  let afterVppl : Adapter ←
    if o.vppl.enabled then
      if !o.vppl.proxy then do
        if o.vppl.key.isEmpty then throw DErr.noPublicKey
        let k ← parseKey o.vppl.key
        pure {base with
          vppl := ⟨true, false, parseSocksaddrHostPort o.vppl.host o.vppl.port, some k⟩}
      else pure {base with vppl := ⟨true, true, .empty, none⟩}
    else pure base
  let _ ←
    (if o.hasTransport then
      if o.vppl.enabled then throw DErr.vpplTransport else pure ()
     else pure () : Except DErr Unit)
  let afterPE : Adapter ←
    match o.packetEncoding with
    | none => pure {afterVppl with xudp := true}
    | some s =>
      if s = [] then pure afterVppl
      else if s = strBytes "packetaddr" then pure {afterVppl with packetAddr := true}
      else if s = strBytes "xudp" then pure {afterVppl with xudp := true}
      else throw DErr.unknownPacketEncoding
  let _ ← newClient o.uuid o.flow
  pure afterPE

/-! ## Concrete collaborators and adapters for the dial claims -/

/-- Externals where every collaborator call succeeds; the canonical
destination string and the encryption are arbitrary concrete functions. -/
def extOK : Ext :=
  { destString := fun _ => [100]
    encrypt := fun _ m => .ok (0 :: m)
    transportDial := .ok ()
    dial := fun _ => .ok ()
    tls := .ok ()
    dialEarlyConn := .ok ()
    dialEarlyXUDP := .ok ()
    dialEarlyPacket := .ok ()
    mux := .ok () }

def extDialFail : Ext := { extOK with dial := fun _ => .error (.external 9) }

def extEarlyFail : Ext := { extOK with dialEarlyConn := .error (.external 3) }

/-- A ClientEncrypt adapter whose server address and VPPL relay address
differ. -/
def c3adapter : Adapter :=
  ⟨.ipv4 [1, 1, 1, 1] 443, ⟨true, false, .ipv4 [2, 2, 2, 2] 8443, some ⟨5, 7⟩⟩, none,
    false, false, false, false, false⟩

/-- A packetaddr adapter with the anchor extension disabled. -/
def c4adapter : Adapter :=
  ⟨.ipv4 [5, 5, 5, 5] 443, ⟨false, false, .empty, none⟩, none, true, false, false, false, false⟩

def c5adapter : Adapter :=
  ⟨.ipv4 [6, 6, 6, 6] 8443, ⟨false, false, .empty, none⟩, none, false, true, false, false, false⟩

/-- A RelayPassthrough (proxy-mode) adapter. -/
def c7adapter : Adapter :=
  ⟨.ipv4 [1, 1, 1, 1] 443, ⟨true, true, .empty, none⟩, none, false, true, false, false, false⟩

/-- An adapter with the anchor extension disabled. -/
def c9disabled : Adapter :=
  ⟨.ipv4 [1, 1, 1, 1] 443, ⟨false, false, .empty, none⟩, none, false, true, false, false, false⟩

/-! ## C3: ClientEncrypt destination handling -/

theorem acquireConn_trace (h : Adapter) (ext : Ext) (d : Socksaddr)
    (htr : h.hasTransport = false) (hproxy : h.vppl.proxy = false) :
    (acquireConn h ext d).2 = [.dialTCP h.serverAddr] ∨
      (acquireConn h ext d).2 = [.dialTCP h.serverAddr, .tlsHandshake] := by
  unfold acquireConn
  simp only [htr, hproxy, Bool.and_false, Bool.false_eq_true, if_false]
  rcases hd : ext.dial h.serverAddr with e | u
  · left
    rfl
  · by_cases htls : h.hasTLS = true
    · right
      simp [htls]
    · left
      simp [htls]

theorem vlessDialerDialContext_trace (h : Adapter) (ext : Ext) (network : Net)
    (dest : Socksaddr) :
    ∃ tail, (vlessDialerDialContext h ext network dest).2 = (acquireConn h ext dest).2 ++ tail ∧
      ∀ s, Ev.dialTCP s ∉ tail := by
  rcases hacq : (acquireConn h ext dest).1 with e | u
  · exact ⟨[], by simp [vlessDialerDialContext, hacq], by simp⟩
  · cases network with
    | tcp =>
      rcases hde : ext.dialEarlyConn with e1 | u1
      · exact ⟨[.earlyConn dest h.originDest],
          by simp [vlessDialerDialContext, hacq, hde], by simp⟩
      · exact ⟨[.earlyConn dest h.originDest],
          by simp [vlessDialerDialContext, hacq, hde], by simp⟩
    | udp =>
      by_cases hxu : h.xudp = true
      · rcases hdx : ext.dialEarlyXUDP with e2 | u2
        · exact ⟨[.earlyXUDP dest h.originDest],
            by simp [vlessDialerDialContext, hacq, hxu, hdx], by simp⟩
        · exact ⟨[.earlyXUDP dest h.originDest],
            by simp [vlessDialerDialContext, hacq, hxu, hdx], by simp⟩
      · by_cases hpa : h.packetAddr = true
        · by_cases hfq : dest.isFqdn = true
          · exact ⟨[], by simp [vlessDialerDialContext, hacq, hxu, hpa, hfq], by simp⟩
          · rcases hdp : ext.dialEarlyPacket with e3 | u3
            · exact ⟨[.earlyPacket (.fqdn seqPacketMagicAddress 0)],
                by simp [vlessDialerDialContext, hacq, hxu, hpa, hfq, hdp], by simp⟩
            · exact ⟨[.earlyPacket (.fqdn seqPacketMagicAddress 0)],
                by simp [vlessDialerDialContext, hacq, hxu, hpa, hfq, hdp], by simp⟩
        · rcases hdp : ext.dialEarlyPacket with e3 | u3
          · exact ⟨[.earlyPacket dest],
              by simp [vlessDialerDialContext, hacq, hxu, hpa, hdp], by simp⟩
          · exact ⟨[.earlyPacket dest],
              by simp [vlessDialerDialContext, hacq, hxu, hpa, hdp], by simp⟩
    | other => exact ⟨[], by simp [vlessDialerDialContext, hacq], by simp⟩

theorem vlessDialerDialContext_dialTCP (h : Adapter) (ext : Ext) (network : Net)
    (dest : Socksaddr) (htr : h.hasTransport = false) (hproxy : h.vppl.proxy = false) :
    ∀ s, Ev.dialTCP s ∈ (vlessDialerDialContext h ext network dest).2 → s = h.serverAddr := by
  intro s hs
  obtain ⟨tail, heq, hnot⟩ := vlessDialerDialContext_trace h ext network dest
  rw [heq] at hs
  rcases List.mem_append.1 hs with h1 | h2
  · rcases acquireConn_trace h ext dest htr hproxy with ha | ha <;> rw [ha] at h1 <;> simp_all
  · exact absurd h2 (hnot s)

/-- **C3 (amended).** Dialing through a ClientEncrypt-configured adapter
(anchor enabled, not proxy, no transport, no multiplexer): every
socket-level dial targets the configured *server* address — never the
caller destination, which influences only the handshake content — and on
the TCP success path the handshake Request declares the configured VPPL
relay address as destination while its obfuscated destination is exactly
the encryption, under the configured key, of the caller destination's
canonical string. -/
theorem clientEncrypt_dial (h : Adapter) (ext : Ext) (ctx : List Nat) (network : Net)
    (dest : Socksaddr) (enc : List Nat)
    (henab : h.vppl.enabled = true) (hproxy : h.vppl.proxy = false)
    (htr : h.hasTransport = false) (hmux : h.hasMultiplex = false)
    (henc : ext.encrypt h.vppl.key (ext.destString dest) = .ok enc) :
    (∀ s, Ev.dialTCP s ∈ (vlessDialContext h ext ctx network dest).1.2 → s = h.serverAddr) ∧
    (network = .tcp → h.hasTLS = false → ext.dial h.serverAddr = .ok () →
      ext.dialEarlyConn = .ok () →
      vlessDialContext h ext ctx network dest =
        ((.ok (.stream h.vppl.address (some enc)),
          [.dialTCP h.serverAddr, .earlyConn h.vppl.address (some enc)]),
         {h with originDest := some enc})) := by
  have hred : vlessDialContext h ext ctx network dest =
      (vlessDialerDialContext {h with originDest := some enc} ext network h.vppl.address,
        {h with originDest := some enc}) := by
    unfold vlessDialContext dialTail
    simp [henab, hproxy, hmux, henc]
  constructor
  · rw [hred]
    exact vlessDialerDialContext_dialTCP _ ext network h.vppl.address htr hproxy
  · intro hnet htls hd hde
    subst hnet
    rw [hred]
    unfold vlessDialerDialContext acquireConn
    simp [htr, htls, hproxy, hd, hde]

theorem clientEncrypt_dial_witness :
    vlessDialContext c3adapter extOK [] .tcp (.ipv4 [3, 3, 3, 3] 80) =
      ((.ok (.stream c3adapter.vppl.address (some [0, 100])),
        [.dialTCP c3adapter.serverAddr, .earlyConn c3adapter.vppl.address (some [0, 100])]),
       {c3adapter with originDest := some [0, 100]}) :=
  (clientEncrypt_dial c3adapter extOK [] .tcp (.ipv4 [3, 3, 3, 3] 80) [0, 100]
      (by decide) (by decide) (by decide) (by decide) (by decide)).2
    rfl (by decide) (by decide) (by decide)

/-- **C3 (counterexample).** With the VPPL relay address set to
2.2.2.2:8443 and the server address to 1.1.1.1:443, a ClientEncrypt dial
physically connects to the server address: no socket-level dial to the
configured relay (VPPL) address ever happens, refuting "the physical
connection target equals the configured relay address". -/
theorem clientEncrypt_dial_counterexample :
    (vlessDialContext c3adapter extOK [] .tcp (.ipv4 [3, 3, 3, 3] 80)).1.2 =
      [.dialTCP (.ipv4 [1, 1, 1, 1] 443),
       .earlyConn (.ipv4 [2, 2, 2, 2] 8443) (some [0, 100])] ∧
    c3adapter.vppl.address = .ipv4 [2, 2, 2, 2] 8443 ∧
    Ev.dialTCP c3adapter.vppl.address ∉
      (vlessDialContext c3adapter extOK [] .tcp (.ipv4 [3, 3, 3, 3] 80)).1.2 := by decide

/-! ## C4: packetaddr domain rejection -/

/-- **C4 (amended).** A UDP dial under address-substitution framing
(packetaddr) to a domain-name destination fails with the
unsupported-destination error before any handshake is built — but only
*after* the underlying stream has been opened: the TCP dial (and TLS
handshake, when configured) precede the domain check, so the failure is
not detected before network I/O. -/
theorem packetaddr_domain_rejection (h : Adapter) (ext : Ext) (dest : Socksaddr)
    (hx : h.xudp = false) (hpa : h.packetAddr = true) (htr : h.hasTransport = false)
    (htls : h.hasTLS = false) (hproxy : h.vppl.proxy = false)
    (hfq : dest.isFqdn = true) (hd : ext.dial h.serverAddr = .ok ()) :
    vlessDialerDialContext h ext .udp dest =
      (.error .packetaddrDomain, [.dialTCP h.serverAddr]) := by
  unfold vlessDialerDialContext acquireConn
  simp [hx, hpa, htr, htls, hproxy, hfq, hd]

theorem packetaddr_domain_rejection_witness :
    vlessDialerDialContext c4adapter extOK .udp (.fqdn [97] 53) =
      (.error .packetaddrDomain, [.dialTCP c4adapter.serverAddr]) :=
  packetaddr_domain_rejection c4adapter extOK (.fqdn [97] 53) (by decide) (by decide)
    (by decide) (by decide) (by decide) (by decide) (by decide)

/-- **C4 (counterexample).** The trace of the failing packetaddr dial
already contains the socket-level dial event: the underlying stream was
opened before the unsupported-destination error, refuting "before any
network I/O is performed, i.e. before any underlying stream is
opened". -/
theorem packetaddr_domain_rejection_counterexample :
    vlessDialerDialContext c4adapter extOK .udp (.fqdn (strBytes "example.com") 53) =
      (.error .packetaddrDomain, [.dialTCP (.ipv4 [5, 5, 5, 5] 443)]) ∧
    (vlessDialerDialContext c4adapter extOK .udp
        (.fqdn (strBytes "example.com") 53)).2 ≠ [] := by decide

/-! ## C5: stream release on post-acquisition failure -/

/-- **C5 (amended).** Only `ListenPacket` closes the partially-opened
stream, and only for acquisition-stage failures: a failed TCP dial or a
failed TLS handshake there is followed by `common.Close(conn)` before
the error is returned.  `DialContext` failure paths after stream
acquisition (packetaddr domain rejection, early-handshake construction
failure, unknown network) return the error without closing the acquired
stream. -/
theorem listenPacket_close_on_failure (h : Adapter) (ext : Ext) (dest : Socksaddr)
    (htr : h.hasTransport = false) (hproxy : h.vppl.proxy = false) :
    (∀ e, ext.dial h.serverAddr = .error e →
      vlessDialerListenPacket h ext dest = (.error e, [.dialTCP h.serverAddr, .closeConn])) ∧
    (∀ e, ext.dial h.serverAddr = .ok () → h.hasTLS = true → ext.tls = .error e →
      vlessDialerListenPacket h ext dest =
        (.error e, [.dialTCP h.serverAddr, .tlsHandshake, .closeConn])) := by
  constructor
  · intro e hd
    unfold vlessDialerListenPacket acquireConn
    simp [htr, hproxy, hd]
  · intro e hd htls hte
    unfold vlessDialerListenPacket acquireConn
    simp [htr, hproxy, hd, htls, hte]

theorem listenPacket_close_on_failure_witness :
    vlessDialerListenPacket c5adapter extDialFail (.ipv4 [9, 9, 9, 9] 53) =
      (.error (.external 9), [.dialTCP c5adapter.serverAddr, .closeConn]) :=
  (listenPacket_close_on_failure c5adapter extDialFail (.ipv4 [9, 9, 9, 9] 53)
      (by decide) (by decide)).1 (.external 9) (by decide)

/-- **C5 (counterexample).** Two `DialContext` failures after the
underlying stream has been acquired — the packetaddr domain rejection
and an early-handshake construction failure — both return the error
with no close event in the trace: the partially-established stream is
not released, refuting the claim. -/
theorem dialContext_no_close_counterexample :
    ((vlessDialerDialContext c4adapter extOK .udp (.fqdn [98] 53)).1 =
        .error .packetaddrDomain ∧
      Ev.closeConn ∉ (vlessDialerDialContext c4adapter extOK .udp (.fqdn [98] 53)).2) ∧
    ((vlessDialerDialContext c5adapter extEarlyFail .tcp (.ipv4 [9, 9, 9, 9] 80)).1 =
        .error (.external 3) ∧
      Ev.closeConn ∉
        (vlessDialerDialContext c5adapter extEarlyFail .tcp (.ipv4 [9, 9, 9, 9] 80)).2) := by
  decide

/-! ## C6: construction-time validation -/

/-- **C6 (amended).** Constructing the adapter with the anchor extension
in ClientEncrypt mode fails whenever the configured public key is empty,
and RelayPassthrough mode never consults the key (the construction
outcome is independent of the key parser); the configured relay address,
however, is *not* validated — an empty VPPL host is accepted (see the
counterexample). -/
theorem newVLESS_key_validation (parseKey : List Nat → Except DErr PubKey)
    (newClient : List Nat → List Nat → Except DErr Unit) (o : VLESSOutboundOptions)
    (henab : o.vppl.enabled = true) :
    (o.vppl.proxy = false → o.vppl.key = [] →
      newVLESS parseKey newClient o = .error .noPublicKey) ∧
    (∀ pk2, o.vppl.proxy = true → newVLESS parseKey newClient o = newVLESS pk2 newClient o) := by
  constructor
  · intro hproxy hkey
    unfold newVLESS
    simp [henab, hproxy, hkey]
  · intro pk2 hproxy
    unfold newVLESS
    simp [henab, hproxy]

def c6parseKey : List Nat → Except DErr PubKey := fun _ => .ok ⟨3, 5⟩

def c6parseKeyFail : List Nat → Except DErr PubKey := fun _ => .error (.external 1)

def c6newClient : List Nat → List Nat → Except DErr Unit := fun _ _ => .ok ()

def c6optsNoKey : VLESSOutboundOptions :=
  ⟨[115], 443, [117], [], false, false, none, false, ⟨true, [], false, [104], 8080⟩⟩

def c6optsProxy : VLESSOutboundOptions :=
  ⟨[115], 443, [117], [], false, false, none, false, ⟨true, [], true, [104], 8080⟩⟩

theorem newVLESS_key_validation_witness :
    newVLESS c6parseKey c6newClient c6optsNoKey = .error .noPublicKey ∧
      newVLESS c6parseKey c6newClient c6optsProxy =
        newVLESS c6parseKeyFail c6newClient c6optsProxy :=
  ⟨(newVLESS_key_validation c6parseKey c6newClient c6optsNoKey (by decide)).1
      (by decide) (by decide),
    (newVLESS_key_validation c6parseKey c6newClient c6optsProxy (by decide)).2
      c6parseKeyFail (by decide)⟩

def c6optsEmptyHost : VLESSOutboundOptions :=
  ⟨[115], 443, [117], [], false, false, none, false, ⟨true, [107], false, [], 0⟩⟩

/-- **C6 (counterexample).** ClientEncrypt construction with a valid key
but an *empty* relay address (empty VPPL host and port 0) succeeds — the
relay address is parsed without any emptiness check — refuting "fails at
construction time whenever ... the configured relay address is
empty". -/
theorem newVLESS_key_validation_counterexample :
    c6optsEmptyHost.vppl.host = [] ∧
      newVLESS c6parseKey c6newClient c6optsEmptyHost =
        .ok { serverAddr := .fqdn [115] 443
              vppl := ⟨true, false, .empty, some ⟨3, 5⟩⟩
              originDest := none
              packetAddr := false
              xudp := true
              hasTransport := false
              hasTLS := false
              hasMultiplex := false } := by decide

/-! ## C7: RelayPassthrough requires the context blob -/

/-- **C7.** A dial through a RelayPassthrough-mode adapter whose inbound
context carries an empty opaque destination blob fails with the
missing-anchor-payload error immediately: the event trace is empty (no
network I/O of any kind) and the adapter state is untouched. -/
theorem relayPassthrough_requires_context (h : Adapter) (ext : Ext) (network : Net)
    (dest : Socksaddr) (henab : h.vppl.enabled = true) (hproxy : h.vppl.proxy = true) :
    vlessDialContext h ext [] network dest = ((.error .vpplDestEmpty, []), h) := by
  unfold vlessDialContext
  simp [henab, hproxy]

theorem relayPassthrough_requires_context_witness :
    vlessDialContext c7adapter extOK [] .tcp (.fqdn [99] 80) =
      ((.error .vpplDestEmpty, []), c7adapter) :=
  relayPassthrough_requires_context c7adapter extOK .tcp (.fqdn [99] 80) (by decide) (by decide)

/-! ## C9: adapter state across dials -/

/-- **C9 (amended).** A dial attempt leaves the adapter unchanged only
when the anchor extension is disabled; in general the dial path writes
exactly one shared adapter field, `originDest` (the obfuscated
destination computed for this attempt), so anchor-enabled dials do
mutate state shared between concurrent dial attempts. -/
theorem dial_state_effect (h : Adapter) (ext : Ext) (ctx : List Nat) (network : Net)
    (dest : Socksaddr) :
    (h.vppl.enabled = false → (vlessDialContext h ext ctx network dest).2 = h) ∧
    {(vlessDialContext h ext ctx network dest).2 with originDest := none} =
      {h with originDest := none} := by
  constructor
  · intro he
    unfold vlessDialContext
    simp [he]
  · unfold vlessDialContext
    by_cases he : h.vppl.enabled = true
    · by_cases hp : (!h.vppl.proxy) = true
      · rcases henc : ext.encrypt h.vppl.key (ext.destString dest) with e | enc <;>
          simp [he, hp, henc]
      · by_cases hc : ctx.length = 0 <;> simp [he, hp, hc]
    · simp [he]

theorem dial_state_effect_witness :
    (vlessDialContext c9disabled extOK [] .tcp (.ipv4 [3, 3, 3, 3] 80)).2 = c9disabled ∧
      {(vlessDialContext c3adapter extOK [] .tcp (.ipv4 [3, 3, 3, 3] 80)).2 with
          originDest := none} =
        {c3adapter with originDest := none} :=
  ⟨(dial_state_effect c9disabled extOK [] .tcp (.ipv4 [3, 3, 3, 3] 80)).1 (by decide),
    (dial_state_effect c3adapter extOK [] .tcp (.ipv4 [3, 3, 3, 3] 80)).2⟩

/-- **C9 (counterexample).** A ClientEncrypt dial writes the shared
`originDest` field of the adapter: after one dial the adapter value
differs from its pre-dial value, refuting "no field of the shared
adapter value other than the immutable configuration is written during a
dial". -/
theorem dial_state_effect_counterexample :
    (vlessDialContext c3adapter extOK [] .tcp (.ipv4 [3, 3, 3, 3] 80)).2 ≠ c3adapter ∧
      (vlessDialContext c3adapter extOK [] .tcp (.ipv4 [3, 3, 3, 3] 80)).2.originDest =
        some [0, 100] ∧
      c3adapter.originDest = none := by decide

end VlessSpec
